import Mathlib

/-!
Shallow embedding of the `serde_rosmsg` deserializer (`src/de.rs`).

The Rust `Deserializer<R>` holds an `io::Read` byte source and a `u32`
byte budget (`length`).  We embed the byte source as the list of bytes
still unread (each a `Nat < 256` morally; the arithmetic never needs the
bound) and the budget as a `Nat`; the guard in `reserve_bytes` ensures
the `u32` subtraction in the source never wraps, so `Nat` subtraction is
exact on the success path.

A Rust `String` is embedded as its UTF-8 byte list.  Map-entry splitting
on the character `=` (`splitn(2, '=')` in the source) coincides with
splitting the byte list at the first byte `61`, because in valid UTF-8
the byte `61` occurs only as the ASCII code point `=`.

Serde drives the deserializer by the shape of the requested Rust type:
each `deserialize_*` method of the trait implementation corresponds to
one constructor of `Shape` below (`deserialize_struct` and
`deserialize_tuple_struct` delegate to `deserialize_tuple`, so both are
rendered by `Shape.tuple`; `deserialize_str`/`deserialize_string` both
run `get_string`, and `deserialize_bytes`/`deserialize_byte_buf` both
run `get_bytes`).
-/

namespace Rosmsg

/-- State of `Deserializer<R>`: the unread bytes of the reader and the
remaining byte budget (`length` field, a `u32` in the source). -/
structure DeState where
  input : List Nat
  length : Nat
deriving DecidableEq

/-- The three argument strings ever passed to
`ErrorKind::UnsupportedDeserializerMethod` in `de.rs`, as a finite tag. -/
inductive DeMethod where
  | any
  | identifier
  | ignoredAny
deriving DecidableEq

/-- Error taxonomy of the crate.  `de.rs` bails with the first eight kinds;
`Io` stands for the raw `io::Error` escaping from the outer length read in
`from_reader` (the error module itself is not among the given sources; the
taxonomy is the one named by the spec and used by `de.rs`). -/
inductive ErrorKind where
  | Overflow
  | Underflow
  | EndOfBuffer
  | BadStringData
  | BadMapEntry
  | UnsupportedEnumType
  | UnsupportedCharType
  | UnsupportedDeserializerMethod (m : DeMethod)
  | Io
deriving DecidableEq

/-- Decoded values delivered to the serde visitor.  Scalars keep their wire
width; signed scalars carry the two's-complement reading, floats carry raw
IEEE-754 bits (no float arithmetic is ever performed by the codec). -/
inductive Value where
  | vBool (b : Bool)
  | vUInt (width : Nat) (n : Nat)
  | vInt (width : Nat) (i : Int)
  | vF32 (bits : Nat)
  | vF64 (bits : Nat)
  | vStr (utf8 : List Nat)
  | vBytes (bs : List Nat)
  | vSeq (elems : List Value)
  | vTuple (elems : List Value)
  | vMap (entries : List (Value × Value))
  | vUnit

/-- The shape of the Rust type being deserialized: which `deserialize_*`
method serde calls at each recursion point. -/
inductive Shape where
  | bool | u8 | i8 | u16 | i16 | u32 | i32 | u64 | i64 | f32 | f64
  | char
  | str
  | bytes
  | option (inner : Shape)
  | unit
  | unitStruct
  | newtypeStruct (inner : Shape)
  | seq (elem : Shape)
  | tuple (fields : List Shape)
  | map (key : Shape) (value : Shape)
  | enum
  | any
  | identifier
  | ignoredAny

/-- Little-endian value of a byte list (first byte is least significant). -/
def leVal (bs : List Nat) : Nat :=
  bs.foldr (fun b acc => b + 256 * acc) 0

/-- Little-endian encoding of `n` on `w` bytes (mirrors `byteorder`'s
`write_u32::<LittleEndian>` as used by the serializer). -/
def encodeLE (w n : Nat) : List Nat :=
  (List.range w).map (fun i => n / 256 ^ i % 256)

/-- Two's-complement reading of a `w`-byte little-endian value, as done by
`read_i8/read_i16/read_i32/read_i64`. -/
def toSigned (w n : Nat) : Int :=
  if n < 2 ^ (8 * w - 1) then (n : Int) else (n : Int) - 2 ^ (8 * w)

/-- Reading `n` bytes from the byte source (`read_exact` /
`ReadBytesExt` reads): fails when the source holds fewer than `n` bytes,
which `de.rs` chains to `ErrorKind::EndOfBuffer`. -/
def readBytes (n : Nat) (s : DeState) : Except ErrorKind (List Nat × DeState) :=
  if n ≤ s.input.length then
    .ok (s.input.take n, ⟨s.input.drop n, s.length⟩)
  else
    .error .EndOfBuffer

/-- `Deserializer::reserve_bytes`: bail with `Overflow` when `size`
exceeds the remaining budget, else subtract it. -/
def reserve_bytes (size : Nat) (s : DeState) : Except ErrorKind DeState :=
  if s.length < size then .error .Overflow
  else .ok ⟨s.input, s.length - size⟩

/-- `Deserializer::is_fully_read`: the budget is exhausted. -/
def is_fully_read (s : DeState) : Bool :=
  s.length == 0

/-- Rust's `?` operator on `Result` is monadic bind on `Except`: an error
short-circuits.  These two reduction rules are definitional. -/
theorem error_bind {α β : Type} (e : ErrorKind) (f : α → Except ErrorKind β) :
    (Except.error e : Except ErrorKind α).bind f = .error e := rfl

theorem ok_bind {α β : Type} (a : α) (f : α → Except ErrorKind β) :
    (Except.ok a : Except ErrorKind α).bind f = f a := rfl

/-- `Deserializer::pop_length`: reserve 4 budget bytes, then read a
little-endian `u32` from the source. -/
def pop_length (s : DeState) : Except ErrorKind (Nat × DeState) :=
  (reserve_bytes 4 s).bind fun s₁ =>
  (readBytes 4 s₁).bind fun x => .ok (leVal x.1, x.2)

/-- Standard UTF-8 validity of a byte list, as checked by Rust's
`String::from_utf8` (RFC 3629: no overlong forms, no surrogates, max
U+10FFFF). -/
def utf8Valid : List Nat → Bool
  | [] => true
  | b :: rest =>
    if b < 0x80 then utf8Valid rest
    else if 0xC2 ≤ b ∧ b ≤ 0xDF then
      match rest with
      | b1 :: r => decide (0x80 ≤ b1 ∧ b1 ≤ 0xBF) && utf8Valid r
      | [] => false
    else if b = 0xE0 then
      match rest with
      | b1 :: b2 :: r =>
        decide (0xA0 ≤ b1 ∧ b1 ≤ 0xBF) && decide (0x80 ≤ b2 ∧ b2 ≤ 0xBF) && utf8Valid r
      | _ => false
    else if (0xE1 ≤ b ∧ b ≤ 0xEC) ∨ b = 0xEE ∨ b = 0xEF then
      match rest with
      | b1 :: b2 :: r =>
        decide (0x80 ≤ b1 ∧ b1 ≤ 0xBF) && decide (0x80 ≤ b2 ∧ b2 ≤ 0xBF) && utf8Valid r
      | _ => false
    else if b = 0xED then
      match rest with
      | b1 :: b2 :: r =>
        decide (0x80 ≤ b1 ∧ b1 ≤ 0x9F) && decide (0x80 ≤ b2 ∧ b2 ≤ 0xBF) && utf8Valid r
      | _ => false
    else if b = 0xF0 then
      match rest with
      | b1 :: b2 :: b3 :: r =>
        decide (0x90 ≤ b1 ∧ b1 ≤ 0xBF) && decide (0x80 ≤ b2 ∧ b2 ≤ 0xBF) &&
          decide (0x80 ≤ b3 ∧ b3 ≤ 0xBF) && utf8Valid r
      | _ => false
    else if 0xF1 ≤ b ∧ b ≤ 0xF3 then
      match rest with
      | b1 :: b2 :: b3 :: r =>
        decide (0x80 ≤ b1 ∧ b1 ≤ 0xBF) && decide (0x80 ≤ b2 ∧ b2 ≤ 0xBF) &&
          decide (0x80 ≤ b3 ∧ b3 ≤ 0xBF) && utf8Valid r
      | _ => false
    else if b = 0xF4 then
      match rest with
      | b1 :: b2 :: b3 :: r =>
        decide (0x80 ≤ b1 ∧ b1 ≤ 0x8F) && decide (0x80 ≤ b2 ∧ b2 ≤ 0xBF) &&
          decide (0x80 ≤ b3 ∧ b3 ≤ 0xBF) && utf8Valid r
      | _ => false
    else false
termination_by structural l => l

/-- `Deserializer::get_string`: pop a `u32` length, reserve that many
budget bytes, read that many source bytes, then validate UTF-8 (failure is
`BadStringData`, detected only after the body was read).  The string is
returned as its UTF-8 bytes. -/
def get_string (s : DeState) : Except ErrorKind (List Nat × DeState) :=
  (pop_length s).bind fun x =>
  (reserve_bytes x.1 x.2).bind fun s₂ =>
  (readBytes x.1 s₂).bind fun y =>
  if utf8Valid y.1 then .ok (y.1, y.2) else .error .BadStringData

/-- `Deserializer::get_bytes`: as `get_string` but without UTF-8
validation. -/
def get_bytes (s : DeState) : Except ErrorKind (List Nat × DeState) :=
  (pop_length s).bind fun x =>
  (reserve_bytes x.1 x.2).bind fun s₂ =>
  (readBytes x.1 s₂).bind fun y => .ok (y.1, y.2)

/-- Splitting a byte list at the first occurrence of `61` (the byte of
`=`): `data.splitn(2, '=')` in the source yields two items exactly when
the text contains a `=`; the second item keeps any later `=`. -/
def splitFirstEq : List Nat → Option (List Nat × List Nat)
  | [] => none
  | b :: rest =>
    if b = 61 then some ([], rest)
    else (splitFirstEq rest).map (fun kv => (b :: kv.1, kv.2))

/-- Modelled from the spec: the crate's serializer (`ser.rs`, not among the
given source files) encodes a string through the Variable-Length Codec as
"the `u32` byte length, then the raw bytes".  `Access::value_into_bytes`
serializes a key/value substring this way into a private buffer; since a
Rust string is embedded here as its UTF-8 bytes, the buffer is the 4-byte
little-endian length followed by those bytes. -/
def value_into_bytes (bs : List Nat) : List Nat :=
  encodeLE 4 bs.length ++ bs

/-- `Access::pop_item` of `deserialize_map`: read one `"key=value"` text
entry, split at the first `=` (its absence is `BadMapEntry`; the first
item of `splitn(2, _)` always exists, so the source's first bail arm is
dead), and re-encode both sides into private buffers. -/
def pop_item (s : DeState) : Except ErrorKind ((List Nat × List Nat) × DeState) :=
  (get_string s).bind fun x =>
  match splitFirstEq x.1 with
  | some kv => .ok ((value_into_bytes kv.1, value_into_bytes kv.2), x.2)
  | none => .error .BadMapEntry

theorem reserve_bytes_ok {n : Nat} {s s' : DeState}
    (h : reserve_bytes n s = .ok s') :
    n ≤ s.length ∧ s' = ⟨s.input, s.length - n⟩ := by
  unfold reserve_bytes at h
  split at h
  · exact absurd h (by simp)
  · exact ⟨by omega, by simpa using h.symm⟩

theorem readBytes_ok {n : Nat} {s : DeState} {bs : List Nat} {s' : DeState}
    (h : readBytes n s = .ok (bs, s')) :
    n ≤ s.input.length ∧ bs = s.input.take n ∧ s' = ⟨s.input.drop n, s.length⟩ := by
  unfold readBytes at h
  split at h
  · refine ⟨by omega, ?_, ?_⟩ <;> simp_all
  · exact absurd h (by simp)

theorem pop_length_ok {s : DeState} {len : Nat} {s' : DeState}
    (h : pop_length s = .ok (len, s')) :
    4 ≤ s.length ∧ s'.length = s.length - 4 := by
  unfold pop_length at h
  cases hr : reserve_bytes 4 s with
  | error e => simp [error_bind, ok_bind, hr] at h
  | ok s₁ =>
    obtain ⟨h4, hs₁⟩ := reserve_bytes_ok hr
    simp only [error_bind, ok_bind, hr] at h
    cases hb : readBytes 4 s₁ with
    | error e => simp [error_bind, ok_bind, hb] at h
    | ok p =>
      obtain ⟨bs, s₂⟩ := p
      obtain ⟨-, -, hs₂⟩ := readBytes_ok hb
      simp only [error_bind, ok_bind, hb, Except.ok.injEq, Prod.mk.injEq] at h
      obtain ⟨-, rfl⟩ := h
      exact ⟨h4, by simp [hs₂, hs₁]⟩

theorem get_string_ok_length {s : DeState} {d : List Nat} {s' : DeState}
    (h : get_string s = .ok (d, s')) : s'.length < s.length := by
  unfold get_string at h
  cases hp : pop_length s with
  | error e => simp [error_bind, ok_bind, hp] at h
  | ok p =>
    obtain ⟨len, s₁⟩ := p
    obtain ⟨h4, hlen⟩ := pop_length_ok hp
    simp only [error_bind, ok_bind, hp] at h
    cases hr : reserve_bytes len s₁ with
    | error e => simp [error_bind, ok_bind, hr] at h
    | ok s₂ =>
      obtain ⟨-, hs₂⟩ := reserve_bytes_ok hr
      simp only [error_bind, ok_bind, hr] at h
      cases hb : readBytes len s₂ with
      | error e => simp [error_bind, ok_bind, hb] at h
      | ok q =>
        obtain ⟨buffer, s₃⟩ := q
        obtain ⟨-, -, hs₃⟩ := readBytes_ok hb
        simp only [error_bind, ok_bind, hb] at h
        split at h
        · simp only [Except.ok.injEq, Prod.mk.injEq] at h
          obtain ⟨-, rfl⟩ := h
          have h3 : s₃.length = s₂.length := by rw [hs₃]
          have h2 : s₂.length = s₁.length - len := by rw [hs₂]
          omega
        · simp at h

theorem pop_item_ok_length {s : DeState} {kv : List Nat × List Nat} {s' : DeState}
    (h : pop_item s = .ok (kv, s')) : s'.length < s.length := by
  unfold pop_item at h
  cases hg : get_string s with
  | error e => simp [error_bind, ok_bind, hg] at h
  | ok p =>
    obtain ⟨data, s₁⟩ := p
    have hlt := get_string_ok_length hg
    simp only [error_bind, ok_bind, hg] at h
    cases hs : splitFirstEq data with
    | none => simp [error_bind, ok_bind, hs] at h
    | some q =>
      simp only [error_bind, ok_bind, hs, Except.ok.injEq, Prod.mk.injEq] at h
      obtain ⟨-, rfl⟩ := h
      exact hlt

/-- Body of the `impl_nums!` macro (and of the hand-written
`deserialize_bool/u8/i8`): reserve the fixed scalar width against the
budget, then read that many bytes little-endian from the source. -/
def readUIntLE (w : Nat) (s : DeState) : Except ErrorKind (Nat × DeState) :=
  (reserve_bytes w s).bind fun s₁ =>
  (readBytes w s₁).bind fun x => .ok (leVal x.1, x.2)

mutual

/-- The serde `Deserializer` trait implementation of `de.rs`, as one
shape-directed function: `decode sh s` is what `deserialize_<sh>` does in
state `s`.  `deserialize_struct`/`deserialize_tuple_struct` delegate to
the tuple case; `deserialize_newtype_struct` delegates to its inner
shape. -/
def decode : Shape → DeState → Except ErrorKind (Value × DeState)
  | .any, _ => .error (.UnsupportedDeserializerMethod .any)
  | .identifier, _ => .error (.UnsupportedDeserializerMethod .identifier)
  | .ignoredAny, _ => .error (.UnsupportedDeserializerMethod .ignoredAny)
  | .bool, s => (readUIntLE 1 s).bind fun x => .ok (.vBool (x.1 != 0), x.2)
  | .u8, s => (readUIntLE 1 s).bind fun x => .ok (.vUInt 1 x.1, x.2)
  | .i8, s => (readUIntLE 1 s).bind fun x => .ok (.vInt 1 (toSigned 1 x.1), x.2)
  | .u16, s => (readUIntLE 2 s).bind fun x => .ok (.vUInt 2 x.1, x.2)
  | .i16, s => (readUIntLE 2 s).bind fun x => .ok (.vInt 2 (toSigned 2 x.1), x.2)
  | .u32, s => (readUIntLE 4 s).bind fun x => .ok (.vUInt 4 x.1, x.2)
  | .i32, s => (readUIntLE 4 s).bind fun x => .ok (.vInt 4 (toSigned 4 x.1), x.2)
  | .u64, s => (readUIntLE 8 s).bind fun x => .ok (.vUInt 8 x.1, x.2)
  | .i64, s => (readUIntLE 8 s).bind fun x => .ok (.vInt 8 (toSigned 8 x.1), x.2)
  | .f32, s => (readUIntLE 4 s).bind fun x => .ok (.vF32 x.1, x.2)
  | .f64, s => (readUIntLE 8 s).bind fun x => .ok (.vF64 x.1, x.2)
  | .char, _ => .error .UnsupportedCharType
  | .str, s => (get_string s).bind fun x => .ok (.vStr x.1, x.2)
  | .bytes, s => (get_bytes s).bind fun x => .ok (.vBytes x.1, x.2)
  | .option _, _ => .error .UnsupportedEnumType
  | .unit, s => .ok (.vUnit, s)
  | .unitStruct, s => .ok (.vUnit, s)
  | .newtypeStruct inner, s => decode inner s
  | .seq elem, s =>
    (pop_length s).bind fun x =>
    (decodeSeqElems elem x.1 x.2).bind fun y => .ok (.vSeq y.1, y.2)
  | .tuple fields, s =>
    (decodeFields fields s).bind fun x => .ok (.vTuple x.1, x.2)
  | .map k v, s =>
    (decodeMapLoop k v s).bind fun x => .ok (.vMap x.1, x.2)
  | .enum, _ => .error .UnsupportedEnumType
termination_by sh _ => (2 * sizeOf sh, 0)

/-- The `SeqAccess` loop of `deserialize_seq`/`deserialize_tuple`: decode
exactly `n` elements of shape `elem` back-to-back (serde's
`next_element_seed` returns `None` once the countdown hits zero). -/
def decodeSeqElems (elem : Shape) : Nat → DeState → Except ErrorKind (List Value × DeState)
  | 0, s => .ok ([], s)
  | n + 1, s =>
    (decode elem s).bind fun x =>
    (decodeSeqElems elem n x.2).bind fun y => .ok (x.1 :: y.1, y.2)
termination_by n _ => (2 * sizeOf elem + 1, n)

/-- The fixed-arity variant of the same loop, one shape per field, used by
`deserialize_tuple` (hence also structs and tuple structs). -/
def decodeFields : List Shape → DeState → Except ErrorKind (List Value × DeState)
  | [], s => .ok ([], s)
  | f :: rest, s =>
    (decode f s).bind fun x =>
    (decodeFields rest x.2).bind fun y => .ok (x.1 :: y.1, y.2)
termination_by fields _ => (2 * sizeOf fields + 1, 0)

/-- The `MapAccess` loop of `deserialize_map`: while the budget is not
exhausted, `pop_item` one `"key=value"` entry, then decode the key and the
value each from its own fresh `Deserializer` over the re-encoded private
buffer, whose budget is that buffer's length. -/
def decodeMapLoop (k v : Shape) (s : DeState) :
    Except ErrorKind (List (Value × Value) × DeState) :=
  if is_fully_read s then .ok ([], s)
  else
    match hp : pop_item s with
    | .error er => .error er
    | .ok x =>
      (decode k ⟨x.1.1, x.1.1.length⟩).bind fun kV =>
      (decode v ⟨x.1.2, x.1.2.length⟩).bind fun vV =>
      (decodeMapLoop k v x.2).bind fun y => .ok ((kV.1, vV.1) :: y.1, y.2)
termination_by (2 * (sizeOf k + sizeOf v) + 1, s.length)
decreasing_by
  · exact Prod.Lex.left _ _ (by omega)
  · exact Prod.Lex.left _ _ (by omega)
  · exact Prod.Lex.right _ (pop_item_ok_length hp)

end

theorem decodeMapLoop_stop {k v : Shape} {s : DeState} (h : is_fully_read s = true) :
    decodeMapLoop k v s = .ok ([], s) := by
  rw [decodeMapLoop, h]
  simp

theorem decodeMapLoop_err {k v : Shape} {s : DeState} {er : ErrorKind}
    (h : is_fully_read s = false) (hp : pop_item s = .error er) :
    decodeMapLoop k v s = .error er := by
  rw [decodeMapLoop, h]
  simp only [Bool.false_eq_true, if_false]
  split
  · next er' heq => rw [hp] at heq; cases heq; rfl
  · next x' heq => rw [hp] at heq; cases heq

theorem decodeMapLoop_next {k v : Shape} {s : DeState} {p : List Nat × List Nat}
    {s₁ : DeState}
    (h : is_fully_read s = false) (hp : pop_item s = .ok (p, s₁)) :
    decodeMapLoop k v s =
      (decode k ⟨p.1, p.1.length⟩).bind fun kV =>
      (decode v ⟨p.2, p.2.length⟩).bind fun vV =>
      (decodeMapLoop k v s₁).bind fun y => .ok ((kV.1, vV.1) :: y.1, y.2) := by
  rw [decodeMapLoop, h]
  simp only [Bool.false_eq_true, if_false]
  split
  · next er' heq => rw [hp] at heq; cases heq
  · next x' heq =>
    rw [hp] at heq
    cases heq
    rfl

/-- A well-behaved decoder result over starting state `s`: on success the
remaining budget never grew, and on failure the error is one of the kinds
`de.rs` actually bails with inside a value decode — in particular never
`Underflow` (that kind arises only at the framing layer) and never a raw
io error. -/
def GoodResult {α : Type} (s : DeState) (r : Except ErrorKind (α × DeState)) : Prop :=
  (∀ a s', r = .ok (a, s') → s'.length ≤ s.length) ∧
  (∀ e, r = .error e → e ≠ .Underflow ∧ e ≠ .Io)

theorem readBytes_err {n : Nat} {s : DeState} {e : ErrorKind}
    (h : readBytes n s = .error e) : e = .EndOfBuffer := by
  unfold readBytes at h
  split at h
  · simp at h
  · simpa using h.symm

theorem reserve_bytes_err {n : Nat} {s : DeState} {e : ErrorKind}
    (h : reserve_bytes n s = .error e) : e = .Overflow := by
  unfold reserve_bytes at h
  split at h
  · simpa using h.symm
  · simp at h

theorem pop_length_err {s : DeState} {e : ErrorKind}
    (h : pop_length s = .error e) : e = .Overflow ∨ e = .EndOfBuffer := by
  unfold pop_length at h
  cases hr : reserve_bytes 4 s with
  | error e₁ =>
    simp only [error_bind, ok_bind, hr, Except.error.injEq] at h
    exact .inl (h ▸ reserve_bytes_err hr)
  | ok s₁ =>
    simp only [error_bind, ok_bind, hr] at h
    cases hb : readBytes 4 s₁ with
    | error e₂ =>
      simp only [error_bind, ok_bind, hb, Except.error.injEq] at h
      exact .inr (h ▸ readBytes_err hb)
    | ok p => obtain ⟨bs, s₂⟩ := p; simp [error_bind, ok_bind, hb] at h

theorem get_string_err {s : DeState} {e : ErrorKind}
    (h : get_string s = .error e) :
    e = .Overflow ∨ e = .EndOfBuffer ∨ e = .BadStringData := by
  unfold get_string at h
  cases hp : pop_length s with
  | error e₁ =>
    simp only [error_bind, ok_bind, hp, Except.error.injEq] at h
    rcases pop_length_err hp with h1 | h1
    · exact .inl (h ▸ h1)
    · exact .inr (.inl (h ▸ h1))
  | ok p =>
    obtain ⟨len, s₁⟩ := p
    simp only [error_bind, ok_bind, hp] at h
    cases hr : reserve_bytes len s₁ with
    | error e₁ =>
      simp only [error_bind, ok_bind, hr, Except.error.injEq] at h
      exact .inl (h ▸ reserve_bytes_err hr)
    | ok s₂ =>
      simp only [error_bind, ok_bind, hr] at h
      cases hb : readBytes len s₂ with
      | error e₁ =>
        simp only [error_bind, ok_bind, hb, Except.error.injEq] at h
        exact .inr (.inl (h ▸ readBytes_err hb))
      | ok q =>
        obtain ⟨buffer, s₃⟩ := q
        simp only [error_bind, ok_bind, hb] at h
        split at h
        · simp at h
        · simp only [Except.error.injEq] at h
          exact .inr (.inr h.symm)

theorem get_bytes_err {s : DeState} {e : ErrorKind}
    (h : get_bytes s = .error e) : e = .Overflow ∨ e = .EndOfBuffer := by
  unfold get_bytes at h
  cases hp : pop_length s with
  | error e₁ =>
    simp only [error_bind, ok_bind, hp, Except.error.injEq] at h
    exact h ▸ pop_length_err hp
  | ok p =>
    obtain ⟨len, s₁⟩ := p
    simp only [error_bind, ok_bind, hp] at h
    cases hr : reserve_bytes len s₁ with
    | error e₁ =>
      simp only [error_bind, ok_bind, hr, Except.error.injEq] at h
      exact .inl (h ▸ reserve_bytes_err hr)
    | ok s₂ =>
      simp only [error_bind, ok_bind, hr] at h
      cases hb : readBytes len s₂ with
      | error e₁ =>
        simp only [error_bind, ok_bind, hb, Except.error.injEq] at h
        exact .inr (h ▸ readBytes_err hb)
      | ok q => obtain ⟨buffer, s₃⟩ := q; simp [error_bind, ok_bind, hb] at h

theorem get_bytes_ok_length {s : DeState} {d : List Nat} {s' : DeState}
    (h : get_bytes s = .ok (d, s')) : s'.length < s.length := by
  unfold get_bytes at h
  cases hp : pop_length s with
  | error e => simp [error_bind, ok_bind, hp] at h
  | ok p =>
    obtain ⟨len, s₁⟩ := p
    obtain ⟨h4, hlen⟩ := pop_length_ok hp
    simp only [error_bind, ok_bind, hp] at h
    cases hr : reserve_bytes len s₁ with
    | error e => simp [error_bind, ok_bind, hr] at h
    | ok s₂ =>
      obtain ⟨-, hs₂⟩ := reserve_bytes_ok hr
      simp only [error_bind, ok_bind, hr] at h
      cases hb : readBytes len s₂ with
      | error e => simp [error_bind, ok_bind, hb] at h
      | ok q =>
        obtain ⟨buffer, s₃⟩ := q
        obtain ⟨-, -, hs₃⟩ := readBytes_ok hb
        simp only [error_bind, ok_bind, hb, Except.ok.injEq, Prod.mk.injEq] at h
        obtain ⟨-, rfl⟩ := h
        have h3 : s₃.length = s₂.length := by rw [hs₃]
        have h2 : s₂.length = s₁.length - len := by rw [hs₂]
        omega

theorem pop_item_err {s : DeState} {e : ErrorKind}
    (h : pop_item s = .error e) :
    e = .Overflow ∨ e = .EndOfBuffer ∨ e = .BadStringData ∨ e = .BadMapEntry := by
  unfold pop_item at h
  cases hg : get_string s with
  | error e₁ =>
    simp only [error_bind, ok_bind, hg, Except.error.injEq] at h
    rcases get_string_err hg with h1 | h1 | h1
    · exact .inl (h ▸ h1)
    · exact .inr (.inl (h ▸ h1))
    · exact .inr (.inr (.inl (h ▸ h1)))
  | ok p =>
    obtain ⟨data, s₁⟩ := p
    simp only [error_bind, ok_bind, hg] at h
    cases hs : splitFirstEq data with
    | some q => simp [error_bind, ok_bind, hs] at h
    | none =>
      simp only [error_bind, ok_bind, hs, Except.error.injEq] at h
      exact .inr (.inr (.inr h.symm))

theorem readUIntLE_err {w : Nat} {s : DeState} {e : ErrorKind}
    (h : readUIntLE w s = .error e) : e = .Overflow ∨ e = .EndOfBuffer := by
  unfold readUIntLE at h
  cases hr : reserve_bytes w s with
  | error e₁ =>
    simp only [error_bind, ok_bind, hr, Except.error.injEq] at h
    exact .inl (h ▸ reserve_bytes_err hr)
  | ok s₁ =>
    simp only [error_bind, ok_bind, hr] at h
    cases hb : readBytes w s₁ with
    | error e₁ =>
      simp only [error_bind, ok_bind, hb, Except.error.injEq] at h
      exact .inr (h ▸ readBytes_err hb)
    | ok p => obtain ⟨bs, s₂⟩ := p; simp [error_bind, ok_bind, hb] at h

theorem readUIntLE_ok {w : Nat} {s : DeState} {n : Nat} {s' : DeState}
    (h : readUIntLE w s = .ok (n, s')) :
    w ≤ s.length ∧ s'.length = s.length - w ∧ s'.input = s.input.drop w ∧
      n = leVal (s.input.take w) := by
  unfold readUIntLE at h
  cases hr : reserve_bytes w s with
  | error e => simp [error_bind, ok_bind, hr] at h
  | ok s₁ =>
    obtain ⟨hw, hs₁⟩ := reserve_bytes_ok hr
    simp only [error_bind, ok_bind, hr] at h
    cases hb : readBytes w s₁ with
    | error e => simp [error_bind, ok_bind, hb] at h
    | ok p =>
      obtain ⟨bs, s₂⟩ := p
      obtain ⟨-, hbs, hs₂⟩ := readBytes_ok hb
      simp only [error_bind, ok_bind, hb, Except.ok.injEq, Prod.mk.injEq] at h
      obtain ⟨rfl, rfl⟩ := h
      subst hs₁
      subst hs₂
      subst hbs
      simp [hw]

theorem good_pure {α : Type} {s : DeState} (a : α) :
    GoodResult s (.ok (a, s)) := by
  constructor
  · intro b s' h
    simp only [Except.ok.injEq, Prod.mk.injEq] at h
    exact h.2 ▸ le_refl _
  · intro e h
    simp at h

theorem good_err {α : Type} {s : DeState} {e : ErrorKind}
    (h₁ : e ≠ .Underflow) (h₂ : e ≠ .Io) :
    GoodResult s (.error e : Except ErrorKind (α × DeState)) := by
  constructor
  · intro a s' h
    simp at h
  · intro e' h
    simp only [Except.error.injEq] at h
    exact h ▸ ⟨h₁, h₂⟩

theorem good_weaken {α : Type} {s t : DeState} {r : Except ErrorKind (α × DeState)}
    (hle : t.length ≤ s.length) (h : GoodResult t r) : GoodResult s r := by
  constructor
  · intro a s' hr
    exact le_trans (h.1 a s' hr) hle
  · exact h.2

theorem readUIntLE_good (w : Nat) (s : DeState) : GoodResult s (readUIntLE w s) := by
  constructor
  · intro a s' h
    have := (readUIntLE_ok h).2.1
    omega
  · intro e h
    rcases readUIntLE_err h with rfl | rfl <;> exact ⟨by simp, by simp⟩

theorem pop_length_good (s : DeState) : GoodResult s (pop_length s) := by
  constructor
  · intro a s' h
    have := (pop_length_ok h).2
    omega
  · intro e h
    rcases pop_length_err h with rfl | rfl <;> exact ⟨by simp, by simp⟩

theorem get_string_good (s : DeState) : GoodResult s (get_string s) := by
  constructor
  · intro a s' h
    exact le_of_lt (get_string_ok_length h)
  · intro e h
    rcases get_string_err h with rfl | rfl | rfl <;> exact ⟨by simp, by simp⟩

theorem get_bytes_good (s : DeState) : GoodResult s (get_bytes s) := by
  constructor
  · intro a s' h
    exact le_of_lt (get_bytes_ok_length h)
  · intro e h
    rcases get_bytes_err h with rfl | rfl <;> exact ⟨by simp, by simp⟩

theorem pop_item_good (s : DeState) : GoodResult s (pop_item s) := by
  constructor
  · intro a s' h
    exact le_of_lt (pop_item_ok_length h)
  · intro e h
    rcases pop_item_err h with rfl | rfl | rfl | rfl <;> exact ⟨by simp, by simp⟩

/-- Sequencing combinator: a primitive bound with `?`, whose final state
is threaded into the continuation. -/
theorem good_step {α β : Type} {s : DeState}
    {prim : Except ErrorKind (α × DeState)}
    {f : α × DeState → Except ErrorKind (β × DeState)}
    (hprim : GoodResult s prim)
    (hcont : ∀ x, prim = .ok x → GoodResult x.2 (f x)) :
    GoodResult s (prim.bind f) := by
  cases hp : prim with
  | error e =>
    subst hp
    rw [error_bind]
    exact good_err (hprim.2 e rfl).1 (hprim.2 e rfl).2
  | ok p =>
    have hle : p.2.length ≤ s.length := hprim.1 p.1 p.2 (by rw [hp])
    have hg := hcont p hp
    subst hp
    rw [ok_bind]
    constructor
    · intro a s' h
      exact le_trans (hg.1 a s' h) hle
    · intro e h
      exact hg.2 e h

/-- Sequencing combinator for the fresh-buffer decodes inside the map
loop: the primitive's final state is discarded, so the continuation is
judged against the outer state directly; only errors propagate. -/
theorem good_step_discard {α β : Type} {s : DeState}
    {prim : Except ErrorKind (α × DeState)}
    {f : α × DeState → Except ErrorKind (β × DeState)}
    (herr : ∀ e, prim = .error e → e ≠ .Underflow ∧ e ≠ .Io)
    (hcont : ∀ x, prim = .ok x → GoodResult s (f x)) :
    GoodResult s (prim.bind f) := by
  cases hp : prim with
  | error e =>
    subst hp
    rw [error_bind]
    exact good_err (herr e rfl).1 (herr e rfl).2
  | ok p =>
    have hg := hcont p hp
    subst hp
    rw [ok_bind]
    exact hg

/-- Joint well-behavedness of the whole decoder, by the mutual functional
induction of `decode` and its three loops: the remaining budget never
increases across a decode, and no step inside a value decode ever fails
with `Underflow` or a raw io error (those belong to the framing layer). -/
theorem decoder_good :
    (∀ sh s, GoodResult s (decode sh s)) ∧
    (∀ k v s, GoodResult s (decodeMapLoop k v s)) ∧
    (∀ fs s, GoodResult s (decodeFields fs s)) ∧
    (∀ e n s, GoodResult s (decodeSeqElems e n s)) := by
  apply decode.mutual_induct
  all_goals intros
  all_goals try simp only [decode, decodeFields, decodeSeqElems]
  all_goals first
    | exact good_pure _
    | exact good_err (by simp) (by simp)
    | exact good_step (readUIntLE_good _ _) (fun x _ => good_pure _)
    | exact good_step (get_string_good _) (fun x _ => good_pure _)
    | exact good_step (get_bytes_good _) (fun x _ => good_pure _)
    | assumption
    | (refine good_step (by solve_by_elim) fun x _ => good_pure _)
    | (refine good_step (pop_length_good _) fun x _ =>
         good_step (by solve_by_elim) fun y _ => good_pure _)
    | (refine good_step (by solve_by_elim) fun x _ =>
         good_step (by solve_by_elim) fun y _ => good_pure _)
    | (rw [decodeMapLoop_stop (by assumption)]; exact good_pure _)
    | (rename_i h hp
       rw [decodeMapLoop_err (by simp_all) hp]
       rcases pop_item_err hp with rfl | rfl | rfl | rfl <;>
         exact good_err (by simp) (by simp))
    | (rename_i h hp ih3 ih2 ih1
       rw [decodeMapLoop_next (by simp_all) hp]
       refine good_step_discard (fun e he => ih3.2 e he) fun kV _ => ?_
       refine good_step_discard (fun e he => ih2.2 e he) fun vV _ => ?_
       refine good_weaken (le_of_lt (pop_item_ok_length hp)) ?_
       exact good_step ih1 fun y _ => good_pure _)

theorem decode_good (sh : Shape) (s : DeState) : GoodResult s (decode sh s) :=
  decoder_good.1 sh s

/-- `from_reader`: read the outer little-endian `u32` length directly from
the byte source (a failure of this raw read escapes as the io error,
embedded as `Io`), build a `Deserializer` whose budget is exactly that
length, decode one value of the requested shape, then require the budget
to be fully consumed — bailing with `Underflow` otherwise. -/
def from_reader (sh : Shape) (input : List Nat) : Except ErrorKind Value :=
  if 4 ≤ input.length then
    match decode sh ⟨input.drop 4, leVal (input.take 4)⟩ with
    | .error e => .error e
    | .ok (v, s') => if is_fully_read s' then .ok v else .error .Underflow
  else .error .Io

/-- `from_slice` wraps the bytes in an `io::Cursor` and calls
`from_reader`; on a byte list the cursor is the identity. -/
def from_slice (sh : Shape) (bytes : List Nat) : Except ErrorKind Value :=
  from_reader sh bytes

/-- `from_str` feeds the string's UTF-8 bytes to `from_slice`. -/
def from_str (sh : Shape) (value : String) : Except ErrorKind Value :=
  from_slice sh (value.toUTF8.toList.map (fun b => b.toNat))

/-- The fixed wire width of each scalar shape: the `$bytes` argument of the
`impl_nums!` invocations, and 1 for `bool`/`u8`/`i8`. -/
def scalarWidth : Shape → Option Nat
  | .bool => some 1
  | .u8 => some 1
  | .i8 => some 1
  | .u16 => some 2
  | .i16 => some 2
  | .u32 => some 4
  | .i32 => some 4
  | .f32 => some 4
  | .u64 => some 8
  | .i64 => some 8
  | .f64 => some 8
  | _ => none

theorem readUIntLE_overflow {w : Nat} {s : DeState} (h : s.length < w) :
    readUIntLE w s = .error .Overflow := by
  unfold readUIntLE reserve_bytes
  rw [if_pos h, error_bind]

theorem readUIntLE_eob {w : Nat} {s : DeState} (h1 : w ≤ s.length)
    (h2 : s.input.length < w) : readUIntLE w s = .error .EndOfBuffer := by
  unfold readUIntLE reserve_bytes readBytes
  rw [if_neg (by omega), ok_bind, if_neg (by simpa using h2), error_bind]

/-- C2: `reserve_bytes` fails with `Overflow` exactly when the requested
size exceeds the remaining budget; otherwise it subtracts exactly that
size (the subtraction is exact over the integers, so the counter never
goes below zero); success never increases the counter, and neither does
any decode operation; `is_fully_read` holds exactly when the counter is
zero. -/
theorem reserve_bytes_contract :
    (∀ s n, reserve_bytes n s = .error .Overflow ↔ s.length < n) ∧
    (∀ s n, n ≤ s.length →
      reserve_bytes n s = .ok ⟨s.input, s.length - n⟩ ∧
        n + (s.length - n) = s.length) ∧
    (∀ s n s', reserve_bytes n s = .ok s' → s'.length ≤ s.length) ∧
    (∀ sh s v s', decode sh s = .ok (v, s') → s'.length ≤ s.length) ∧
    (∀ s, is_fully_read s = true ↔ s.length = 0) := by
  refine ⟨?_, ?_, ?_, ?_, ?_⟩
  · intro s n
    unfold reserve_bytes
    constructor
    · intro h
      by_contra hc
      rw [if_neg hc] at h
      cases h
    · intro h
      rw [if_pos h]
  · intro s n h
    unfold reserve_bytes
    rw [if_neg (by omega)]
    exact ⟨rfl, by omega⟩
  · intro s n s' h
    have := (reserve_bytes_ok h).2
    subst this
    simp
  · intro sh s v s' h
    exact (decode_good sh s).1 v s' h
  · intro s
    unfold is_fully_read
    exact Nat.beq_eq_true_eq s.length 0 ▸ Iff.rfl

/-- C1: top-level decode reads a little-endian `u32` outer length, then
decodes exactly one value against a byte budget of exactly that many
bytes, and fails with `Underflow` precisely when the value decodes
successfully but leaves the budget nonzero — e.g. outer length 5 with a
`u32`, which consumes only 4 bytes.  (`from_slice`, and `from_str` on the
string's bytes, delegate to `from_reader`.) -/
theorem from_reader_underflow_iff :
    (∀ sh input, from_reader sh input = .error .Underflow ↔
      (4 ≤ input.length ∧
        ∃ v s', decode sh ⟨input.drop 4, leVal (input.take 4)⟩ = .ok (v, s') ∧
          s'.length ≠ 0)) ∧
    (∀ sh bytes, from_slice sh bytes = from_reader sh bytes) ∧
    (∀ sh value, from_str sh value
      = from_reader sh (value.toUTF8.toList.map (fun b => b.toNat))) ∧
    from_slice .u32 [5, 0, 0, 0, 0x45, 0x23, 1, 0xCD] = .error .Underflow := by
  refine ⟨?_, fun sh bytes => rfl, fun sh value => rfl, ?_⟩
  · intro sh input
    constructor
    · intro h
      unfold from_reader at h
      split at h
      · next h4 =>
        refine ⟨h4, ?_⟩
        cases hd : decode sh ⟨input.drop 4, leVal (input.take 4)⟩ with
        | error e =>
          simp only [hd] at h
          cases h
          exact absurd rfl ((decode_good sh _).2 _ hd).1
        | ok p =>
          obtain ⟨v, s'⟩ := p
          simp only [hd] at h
          split at h
          · cases h
          · next hfull =>
            refine ⟨v, s', rfl, ?_⟩
            simpa [is_fully_read] using hfull
      · cases h
    · rintro ⟨h4, v, s', hd, hne⟩
      unfold from_reader
      rw [if_pos h4]
      simp only [hd]
      rw [if_neg (by simp [is_fully_read, hne])]
  · simp only [from_slice, from_reader, decode]
    rfl

/-- C3: each fixed-width scalar decode reserves its width against the
enclosing budget before touching the byte source, so a budget smaller
than the width fails with `Overflow` for every possible source content,
while a source that is too short after a valid reservation fails with
`EndOfBuffer`; concretely, outer length 2 with a `u32` yields `Overflow`
and outer length 4 over only 3 payload bytes yields `EndOfBuffer`. -/
theorem scalar_reserve_before_read :
    (∀ sh w, scalarWidth sh = some w →
      ∀ input len, len < w → decode sh ⟨input, len⟩ = .error .Overflow) ∧
    (∀ sh w, scalarWidth sh = some w →
      ∀ input len, w ≤ len → input.length < w →
        decode sh ⟨input, len⟩ = .error .EndOfBuffer) ∧
    from_slice .u32 [2, 0, 0, 0, 0x45, 0x23, 1, 0xCD] = .error .Overflow ∧
    from_slice .u32 [4, 0, 0, 0, 0x45, 0x23, 1] = .error .EndOfBuffer := by
  refine ⟨?_, ?_, ?_, ?_⟩
  · intro sh w hw input len hlen
    cases sh <;> simp only [scalarWidth, Option.some.injEq, reduceCtorEq] at hw <;>
      subst hw <;> simp only [decode] <;>
      rw [readUIntLE_overflow hlen, error_bind]
  · intro sh w hw input len hge hshort
    cases sh <;> simp only [scalarWidth, Option.some.injEq, reduceCtorEq] at hw <;>
      subst hw <;> simp only [decode] <;>
      rw [readUIntLE_eob hge hshort, error_bind]
  · simp only [from_slice, from_reader, decode]
    rfl
  · simp only [from_slice, from_reader, decode]
    rfl

theorem from_reader_ok {sh : Shape} {input : List Nat} {v : Value} {s' : DeState}
    (h4 : 4 ≤ input.length)
    (hd : decode sh ⟨input.drop 4, leVal (input.take 4)⟩ = .ok (v, s'))
    (hz : s'.length = 0) :
    from_reader sh input = .ok v := by
  unfold from_reader
  rw [if_pos h4]
  simp only [hd]
  rw [if_pos (by simp [is_fully_read, hz])]

theorem from_reader_err {sh : Shape} {input : List Nat} {e : ErrorKind}
    (h4 : 4 ≤ input.length)
    (hd : decode sh ⟨input.drop 4, leVal (input.take 4)⟩ = .error e) :
    from_reader sh input = .error e := by
  unfold from_reader
  rw [if_pos h4]
  simp only [hd]

theorem decodeSeqElems_length {e : Shape} :
    ∀ {n : Nat} {s : DeState} {vs : List Value} {s' : DeState},
      decodeSeqElems e n s = .ok (vs, s') → vs.length = n := by
  intro n
  induction n with
  | zero =>
    intro s vs s' h
    simp only [decodeSeqElems, Except.ok.injEq, Prod.mk.injEq] at h
    simp [← h.1]
  | succ n ih =>
    intro s vs s' h
    simp only [decodeSeqElems] at h
    cases hd : decode e s with
    | error er => rw [hd, error_bind] at h; cases h
    | ok x =>
      rw [hd, ok_bind] at h
      cases hs : decodeSeqElems e n x.2 with
      | error er => rw [hs, error_bind] at h; cases h
      | ok y =>
        rw [hs, ok_bind] at h
        simp only [Except.ok.injEq, Prod.mk.injEq] at h
        rw [← h.1]
        simp [ih hs]

/-- C5: sequence decode reads a `u32` element count, then decodes exactly
that many elements back-to-back with no per-element framing; a declared
count that disagrees with the byte region fails: over a 12-byte region
holding a count prefix and four `i16`s, count 3 leaves bytes over
(`Underflow` at the framing layer) and count 5 overruns the budget
(`Overflow`). -/
theorem seq_decode_exact_count :
    (∀ e s, decode (.seq e) s =
      (pop_length s).bind fun x =>
      (decodeSeqElems e x.1 x.2).bind fun y => .ok (.vSeq y.1, y.2)) ∧
    (∀ e n s vs s', decodeSeqElems e n s = .ok (vs, s') → vs.length = n) ∧
    from_slice (.seq .i16) [12, 0, 0, 0, 3, 0, 0, 0, 7, 0, 1, 4, 33, 0, 57, 0]
      = .error .Underflow ∧
    from_slice (.seq .i16) [12, 0, 0, 0, 5, 0, 0, 0, 7, 0, 1, 4, 33, 0, 57, 0]
      = .error .Overflow := by
  refine ⟨fun e s => by simp only [decode], fun e n s vs s' h => decodeSeqElems_length h,
    ?_, ?_⟩
  · simp [from_slice, from_reader, decode, decodeSeqElems, pop_length, readUIntLE,
      reserve_bytes, readBytes, leVal, is_fully_read, toSigned, error_bind, ok_bind]
  · simp [from_slice, from_reader, decode, decodeSeqElems, pop_length, readUIntLE,
      reserve_bytes, readBytes, leVal, is_fully_read, toSigned, error_bind, ok_bind]

theorem get_string_spec (s : DeState) :
    get_string s =
      if s.length < 4 then .error .Overflow
      else if 4 ≤ s.input.length then
        if s.length - 4 < leVal (s.input.take 4) then .error .Overflow
        else if leVal (s.input.take 4) ≤ s.input.length - 4 then
          if utf8Valid ((s.input.drop 4).take (leVal (s.input.take 4))) then
            .ok ((s.input.drop 4).take (leVal (s.input.take 4)),
              ⟨s.input.drop (4 + leVal (s.input.take 4)),
                s.length - 4 - leVal (s.input.take 4)⟩)
          else .error .BadStringData
        else .error .EndOfBuffer
      else .error .EndOfBuffer := by
  by_cases h1 : s.length < 4
  · simp [get_string, pop_length, reserve_bytes, readBytes, error_bind, ok_bind, h1]
  · by_cases h2 : 4 ≤ s.input.length
    · by_cases h3 : s.length - 4 < leVal (s.input.take 4)
      · simp [get_string, pop_length, reserve_bytes, readBytes, error_bind, ok_bind,
          h1, h2, h3]
      · by_cases h4 : leVal (s.input.take 4) ≤ s.input.length - 4
        · by_cases h5 : utf8Valid ((s.input.drop 4).take (leVal (s.input.take 4))) = true
          · simp [get_string, pop_length, reserve_bytes, readBytes, error_bind, ok_bind,
              h1, h2, h3, h4, h5]
          · simp [get_string, pop_length, reserve_bytes, readBytes, error_bind, ok_bind,
              h1, h2, h3, h4, h5]
        · simp [get_string, pop_length, reserve_bytes, readBytes, error_bind, ok_bind,
            h1, h2, h3, h4]
    · simp [get_string, pop_length, reserve_bytes, readBytes, error_bind, ok_bind, h1, h2]

/-- C4: text decode reads a `u32` byte length, reserves that many budget
bytes and reads that many source bytes, and fails with `BadStringData`
exactly when all of that succeeded — the length prefix and the claimed
body both consumed — but the body is not valid UTF-8; on success the
returned string is exactly those body bytes. -/
theorem text_decode_bad_string_data :
    (∀ s, get_string s = .error .BadStringData ↔
      (4 ≤ s.length ∧ 4 ≤ s.input.length ∧
        leVal (s.input.take 4) ≤ s.length - 4 ∧
        leVal (s.input.take 4) ≤ s.input.length - 4 ∧
        utf8Valid ((s.input.drop 4).take (leVal (s.input.take 4))) = false)) ∧
    (∀ s d s', get_string s = .ok (d, s') ↔
      (4 ≤ s.length ∧ 4 ≤ s.input.length ∧
        leVal (s.input.take 4) ≤ s.length - 4 ∧
        leVal (s.input.take 4) ≤ s.input.length - 4 ∧
        d = (s.input.drop 4).take (leVal (s.input.take 4)) ∧
        utf8Valid d = true ∧
        s' = ⟨s.input.drop (4 + leVal (s.input.take 4)),
          s.length - 4 - leVal (s.input.take 4)⟩)) ∧
    get_string ⟨[2, 0, 0, 0, 0xFF, 0xFE], 6⟩ = .error .BadStringData := by
  refine ⟨?_, ?_, by rfl⟩
  · intro s
    rw [get_string_spec s]
    repeat' split
    all_goals simp_all
  · intro s d s'
    rw [get_string_spec s]
    repeat' split
    all_goals simp_all
    constructor
    · rintro ⟨rfl, rfl⟩
      exact ⟨rfl, by assumption, rfl⟩
    · rintro ⟨rfl, -, rfl⟩
      exact ⟨rfl, rfl⟩

/-- The map loop consumes entries until the region budget is exactly
zero: a successful loop always ends with budget zero, and yields entries
exactly when it started with a nonzero budget.  (The other three motives
of the mutual induction are trivially `True`.) -/
theorem decodeMapLoop_exhausts_aux :
    (∀ (sh : Shape) (s : DeState), sh = sh ∧ s = s) ∧
    (∀ k v s, ∀ es s', decodeMapLoop k v s = .ok (es, s') →
      s'.length = 0 ∧ (es = [] ↔ s.length = 0)) ∧
    (∀ (fs : List Shape) (s : DeState), fs = fs ∧ s = s) ∧
    (∀ (e : Shape) (n : Nat) (s : DeState), e = e ∧ n = n ∧ s = s) := by
  apply decode.mutual_induct
  all_goals intros
  all_goals try exact ⟨rfl, rfl⟩
  all_goals try exact ⟨rfl, rfl, rfl⟩
  · rename_i k v s hfull es s' hok
    rw [decodeMapLoop_stop hfull] at hok
    simp only [Except.ok.injEq, Prod.mk.injEq] at hok
    obtain ⟨rfl, rfl⟩ := hok
    have hz : s.length = 0 := by simpa [is_fully_read] using hfull
    exact ⟨hz, by simp [hz]⟩
  · rename_i hfull er hperr es s' hok
    rw [decodeMapLoop_err (by simp_all) hperr] at hok
    cases hok
  · rename_i k v s hfull x hp ih3 ih2 ih1 es s' hok
    rw [decodeMapLoop_next (by simp_all) hp] at hok
    cases hk : decode k ⟨x.1.1, x.1.1.length⟩ with
    | error er => rw [hk, error_bind] at hok; cases hok
    | ok kV =>
      rw [hk, ok_bind] at hok
      cases hv : decode v ⟨x.1.2, x.1.2.length⟩ with
      | error er => rw [hv, error_bind] at hok; cases hok
      | ok vV =>
        rw [hv, ok_bind] at hok
        cases hl : decodeMapLoop k v x.2 with
        | error er => rw [hl, error_bind] at hok; cases hok
        | ok y =>
          rw [hl, ok_bind] at hok
          simp only [Except.ok.injEq, Prod.mk.injEq] at hok
          obtain ⟨rfl, rfl⟩ := hok
          have hy := ih1 y.1 y.2 (by rw [hl])
          refine ⟨hy.1, ?_⟩
          have hs : s.length ≠ 0 := by simpa [is_fully_read] using hfull
          simp [hs]

/-- C6: a map region is a `u32` region length followed by `key=value`
text entries; the loop stops exactly when the region budget reaches
zero — it returns immediately on a zero budget, a successful decode
always ends with the budget exactly zero, and entries come out exactly
when the budget began nonzero.  Concretely, `[0,0,0,0]` decodes to the
empty map and `[11,0,0,0, 7,0,0,0, abc=123]` to the single entry
`abc ↦ 123`. -/
theorem map_decode_region :
    (∀ k v s, is_fully_read s = true → decodeMapLoop k v s = .ok ([], s)) ∧
    (∀ k v s es s', decodeMapLoop k v s = .ok (es, s') →
      s'.length = 0 ∧ (es = [] ↔ s.length = 0)) ∧
    from_slice (.map .str .str) [0, 0, 0, 0] = .ok (.vMap []) ∧
    from_slice (.map .str .str) [11, 0, 0, 0, 7, 0, 0, 0, 97, 98, 99, 61, 49, 50, 51]
      = .ok (.vMap [(.vStr [97, 98, 99], .vStr [49, 50, 51])]) := by
  refine ⟨fun k v s h => decodeMapLoop_stop h,
    decodeMapLoop_exhausts_aux.2.1, ?_, ?_⟩
  · have hd : decode (.map .str .str) ⟨[], 0⟩ = .ok (.vMap [], ⟨[], 0⟩) := by
      simp only [decode]
      rw [decodeMapLoop_stop (s := (⟨[], 0⟩ : DeState)) rfl]
      rfl
    exact from_reader_ok (by simp) hd rfl
  · have hd : decode (.map .str .str) ⟨[7, 0, 0, 0, 97, 98, 99, 61, 49, 50, 51], 11⟩
        = .ok (.vMap [(.vStr [97, 98, 99], .vStr [49, 50, 51])], ⟨[], 0⟩) := by
      simp only [decode]
      rw [decodeMapLoop_next (s := (⟨[7, 0, 0, 0, 97, 98, 99, 61, 49, 50, 51], 11⟩ : DeState))
          rfl
          (show pop_item ⟨[7, 0, 0, 0, 97, 98, 99, 61, 49, 50, 51], 11⟩
            = .ok (([3, 0, 0, 0, 97, 98, 99], [3, 0, 0, 0, 49, 50, 51]), ⟨[], 0⟩) from rfl),
        decodeMapLoop_stop (s := (⟨[], 0⟩ : DeState)) rfl]
      simp only [decode]
      rfl
    exact from_reader_ok (by simp) hd rfl

theorem splitFirstEq_none_iff (bs : List Nat) :
    splitFirstEq bs = none ↔ 61 ∉ bs := by
  induction bs with
  | nil => simp [splitFirstEq]
  | cons b rest ih =>
    by_cases hb : b = 61
    · subst hb
      simp [splitFirstEq]
    · constructor
      · intro hr
        simp only [splitFirstEq, hb, if_false] at hr
        cases hsr : splitFirstEq rest with
        | none =>
          simp only [List.mem_cons, not_or]
          exact ⟨fun he => hb he.symm, ih.mp hsr⟩
        | some q => rw [hsr] at hr; cases hr
      · intro hr
        simp only [List.mem_cons, not_or] at hr
        simp only [splitFirstEq, hb, if_false]
        rw [ih.mpr hr.2]
        rfl

theorem splitFirstEq_append (kbs vbs : List Nat) (h : 61 ∉ kbs) :
    splitFirstEq (kbs ++ 61 :: vbs) = some (kbs, vbs) := by
  induction kbs with
  | nil => simp [splitFirstEq]
  | cons b rest ih =>
    simp only [List.mem_cons, not_or] at h
    have hb : ¬b = 61 := fun he => h.1 he.symm
    simp [splitFirstEq, hb, ih h.2]

/-- C7: a decoded map entry's text is split at the first `=` byte only —
the key is everything before it, the value everything after it, later
`=` bytes staying in the value — and an entry without any `=` fails with
`BadMapEntry`.  The concrete entry `a=b=c` splits into key `a` and value
`b=c`; the concrete entry `a` (no `=`) fails. -/
theorem map_entry_split_first_eq :
    (∀ s data s₁, get_string s = .ok (data, s₁) → 61 ∉ data →
      pop_item s = .error .BadMapEntry) ∧
    (∀ s data s₁ kbs vbs, get_string s = .ok (data, s₁) →
      data = kbs ++ 61 :: vbs → 61 ∉ kbs →
      pop_item s = .ok ((value_into_bytes kbs, value_into_bytes vbs), s₁)) ∧
    pop_item ⟨[5, 0, 0, 0, 97, 61, 98, 61, 99], 9⟩
      = .ok (([1, 0, 0, 0, 97], [3, 0, 0, 0, 98, 61, 99]), ⟨[], 0⟩) ∧
    pop_item ⟨[1, 0, 0, 0, 97], 5⟩ = .error .BadMapEntry := by
  refine ⟨?_, ?_, by rfl, by rfl⟩
  · intro s data s₁ hg hno
    unfold pop_item
    rw [hg, ok_bind]
    rw [(splitFirstEq_none_iff data).mpr hno]
  · intro s data s₁ kbs vbs hg hdata hno
    unfold pop_item
    rw [hg, ok_bind]
    subst hdata
    rw [splitFirstEq_append kbs vbs hno]

/-- C8, counterexample: requesting a non-text shape for a map value does
NOT necessarily fail with an unsupported-shape error — decoding the
single-entry map `abc=123` with a `u16` value shape succeeds, the `u16`
being read from the low two bytes of the re-encoded buffer's length
prefix. -/
theorem map_nontext_value_succeeds :
    from_slice (.map .str .u16) [11, 0, 0, 0, 7, 0, 0, 0, 97, 98, 99, 61, 49, 50, 51]
      = .ok (.vMap [(.vStr [97, 98, 99], .vUInt 2 3)]) := by
  have hd : decode (.map .str .u16) ⟨[7, 0, 0, 0, 97, 98, 99, 61, 49, 50, 51], 11⟩
      = .ok (.vMap [(.vStr [97, 98, 99], .vUInt 2 3)], ⟨[], 0⟩) := by
    simp only [decode]
    rw [decodeMapLoop_next (s := (⟨[7, 0, 0, 0, 97, 98, 99, 61, 49, 50, 51], 11⟩ : DeState))
        rfl
        (show pop_item ⟨[7, 0, 0, 0, 97, 98, 99, 61, 49, 50, 51], 11⟩
          = .ok (([3, 0, 0, 0, 97, 98, 99], [3, 0, 0, 0, 49, 50, 51]), ⟨[], 0⟩) from rfl),
      decodeMapLoop_stop (s := (⟨[], 0⟩ : DeState)) rfl]
    simp only [decode]
    rfl
  exact from_reader_ok (by simp) hd rfl

/-- C8, amended: each map key/value substring is re-encoded as a
length-prefixed string into a private buffer and re-decoded from it with
an independently-scoped budget equal to that buffer's length; shapes the
deserializer categorically rejects (char, enum, `Option`) still fail with
their unsupported-shape error inside a map, but other non-text shapes are
not rejected: a fixed-width scalar reads raw bytes of the re-encoded
buffer and can succeed. -/
theorem map_value_shape_behavior :
    (∀ k v s (p : List Nat × List Nat) s₁,
      is_fully_read s = false → pop_item s = .ok (p, s₁) →
      decodeMapLoop k v s =
        (decode k ⟨p.1, p.1.length⟩).bind fun kV =>
        (decode v ⟨p.2, p.2.length⟩).bind fun vV =>
        (decodeMapLoop k v s₁).bind fun y => .ok ((kV.1, vV.1) :: y.1, y.2)) ∧
    from_slice (.map .str (.option .str))
        [11, 0, 0, 0, 7, 0, 0, 0, 97, 98, 99, 61, 49, 50, 51]
      = .error .UnsupportedEnumType ∧
    from_slice (.map .char .str) [11, 0, 0, 0, 7, 0, 0, 0, 97, 98, 99, 61, 49, 50, 51]
      = .error .UnsupportedCharType ∧
    from_slice (.map .u16 .u16) [11, 0, 0, 0, 7, 0, 0, 0, 97, 98, 99, 61, 49, 50, 51]
      = .ok (.vMap [(.vUInt 2 3, .vUInt 2 3)]) := by
  refine ⟨fun k v s p s₁ h hp => decodeMapLoop_next h hp, ?_, ?_, ?_⟩
  · have hd : decode (.map .str (.option .str))
        ⟨[7, 0, 0, 0, 97, 98, 99, 61, 49, 50, 51], 11⟩ = .error .UnsupportedEnumType := by
      simp only [decode]
      rw [decodeMapLoop_next (s := (⟨[7, 0, 0, 0, 97, 98, 99, 61, 49, 50, 51], 11⟩ : DeState))
          rfl
          (show pop_item ⟨[7, 0, 0, 0, 97, 98, 99, 61, 49, 50, 51], 11⟩
            = .ok (([3, 0, 0, 0, 97, 98, 99], [3, 0, 0, 0, 49, 50, 51]), ⟨[], 0⟩) from rfl)]
      simp only [decode]
      rfl
    exact from_reader_err (by simp) hd
  · have hd : decode (.map .char .str)
        ⟨[7, 0, 0, 0, 97, 98, 99, 61, 49, 50, 51], 11⟩ = .error .UnsupportedCharType := by
      simp only [decode]
      rw [decodeMapLoop_next (s := (⟨[7, 0, 0, 0, 97, 98, 99, 61, 49, 50, 51], 11⟩ : DeState))
          rfl
          (show pop_item ⟨[7, 0, 0, 0, 97, 98, 99, 61, 49, 50, 51], 11⟩
            = .ok (([3, 0, 0, 0, 97, 98, 99], [3, 0, 0, 0, 49, 50, 51]), ⟨[], 0⟩) from rfl)]
      simp only [decode]
      rfl
    exact from_reader_err (by simp) hd
  · have hd : decode (.map .u16 .u16)
        ⟨[7, 0, 0, 0, 97, 98, 99, 61, 49, 50, 51], 11⟩
        = .ok (.vMap [(.vUInt 2 3, .vUInt 2 3)], ⟨[], 0⟩) := by
      simp only [decode]
      rw [decodeMapLoop_next (s := (⟨[7, 0, 0, 0, 97, 98, 99, 61, 49, 50, 51], 11⟩ : DeState))
          rfl
          (show pop_item ⟨[7, 0, 0, 0, 97, 98, 99, 61, 49, 50, 51], 11⟩
            = .ok (([3, 0, 0, 0, 97, 98, 99], [3, 0, 0, 0, 49, 50, 51]), ⟨[], 0⟩) from rfl),
        decodeMapLoop_stop (s := (⟨[], 0⟩ : DeState)) rfl]
      simp only [decode]
      rfl
    exact from_reader_ok (by simp) hd rfl

/-- C9: requesting a sum type or enum (`Option` included), a `char`
scalar, or self-describing decoding fails with `UnsupportedEnumType`,
`UnsupportedCharType`, or `UnsupportedDeserializerMethod` respectively,
whatever the input bytes and budget. -/
theorem unsupported_shapes_always_fail :
    (∀ s inner, decode (.option inner) s = .error .UnsupportedEnumType) ∧
    (∀ s, decode .enum s = .error .UnsupportedEnumType) ∧
    (∀ s, decode .char s = .error .UnsupportedCharType) ∧
    (∀ s, decode .any s = .error (.UnsupportedDeserializerMethod .any)) ∧
    (∀ s, decode .identifier s = .error (.UnsupportedDeserializerMethod .identifier)) ∧
    (∀ s, decode .ignoredAny s = .error (.UnsupportedDeserializerMethod .ignoredAny)) := by
  refine ⟨?_, ?_, ?_, ?_, ?_, ?_⟩ <;> intros <;> simp [decode]

/-- C10: decoding a unit or unit-struct value always succeeds, reads no
bytes from the source and leaves the budget unchanged (the state is
returned as it was); a unit field inside a struct occupies zero wire
bytes, as the concrete two-field tuple shows. -/
theorem unit_decode_reads_nothing :
    (∀ s, decode .unit s = .ok (.vUnit, s)) ∧
    (∀ s, decode .unitStruct s = .ok (.vUnit, s)) ∧
    from_slice (.tuple [.unit, .u8]) [1, 0, 0, 0, 150]
      = .ok (.vTuple [.vUnit, .vUInt 1 150]) := by
  refine ⟨fun s => by simp [decode], fun s => by simp [decode], ?_⟩
  simp only [from_slice, from_reader, decode, decodeFields]
  rfl

end Rosmsg
